import Mathlib

/-
  Verification development for the chemXtract extraction pipeline.

  Shallow embedding of the core pipeline stages:
  * the per-table extraction loop of `src/agents/extract_table_data_agent.py`
    (`_extract_table_data`, `_verify_table_data`, the retry protocol);
  * the table merge engine and relevance filter of
    `src/agents/extract_table_agent.py` (`add_merged_table`,
    `_concatenate_tables`, `_filter_irrelevant_tables`);
  * the merge-on-write persistence step shared by `save_table_data` and
    `save_main_info`;
  * the normalization stage's cell-value parsing rules.

  LLM calls are modelled as oracle functions passed in as parameters; the
  messages sent to the oracle are modelled explicitly so that prompt-content
  properties can be stated.
-/

namespace ChemXtract

/-! ## Data model

`pages` entries are dictionaries `{number, content, tables, base64}` and
`tables` entries are dictionaries `{number, content, pages, extracted_data}`
in the source; `extracted_data` is absent (treated as `None`) until the
extraction loop attaches a result. -/

/-- `TableDataResult` from `extract_table_data_agent.py`: the structured cell
grid plus the weight-percent flag. -/
structure TableDataResult where
  table_data : List (List String)
  is_weight_percent : Bool
  deriving DecidableEq, Repr

/-- `VerifyExtractionResult` from `extract_table_data_agent.py`. -/
structure VerifyExtractionResult where
  feedback : String
  reextraction_necessary : Bool
  deriving DecidableEq, Repr

/-- A page record: `{"number": .., "content": .., "tables": .., "base64": ..}`. -/
structure SPage where
  number : Nat
  content : String
  tables : List Nat
  base64 : String
  deriving DecidableEq, Repr

/-- A table record: `{"number": .., "content": .., "pages": .., "extracted_data": ..}`;
`extracted_data = none` models both a missing key and an explicit `None`. -/
structure STable where
  number : Nat
  content : String
  pages : List Nat
  extracted_data : Option TableDataResult
  deriving DecidableEq, Repr

/-- `ExtractTableDataState` from `model.py` (the fields the loop uses). -/
structure ExtractTableDataState where
  pages : List SPage
  tables : List STable
  feedback : Option String
  retry_counter : Nat
  curr_table_idx : Option Nat
  deriving DecidableEq, Repr

/-- A chat message: system / human text or an attached base64 image
(`add_base64image_to_messages` appends image messages). -/
inductive Msg where
  | system (text : String)
  | human (text : String)
  | image (b64 : String)
  deriving DecidableEq, Repr

/-- The textual payload of a message. -/
def msgText : Msg → String
  | .system t => t
  | .human t => t
  | .image b => b

/-- `leadsList needle hay` is true when `needle` occurs at the very start of
`hay`. -/
def leadsList [DecidableEq α] : List α → List α → Bool
  | [], _ => true
  | _ :: _, [] => false
  | a :: as, b :: bs => decide (a = b) && leadsList as bs

/-- `occursIn needle hay` is true when `needle` occurs contiguously anywhere
inside `hay`. -/
def occursIn [DecidableEq α] (needle : List α) : List α → Bool
  | [] => leadsList needle []
  | b :: bs => leadsList needle (b :: bs) || occursIn needle bs

/-- Outcome of one LLM chain invocation during extraction: a parsed result, a
`BadRequestError` with code `content_filter`, or any other error. -/
inductive LLMOutcome where
  | ok (result : TableDataResult)
  | contentFilter
  | otherError
  deriving DecidableEq, Repr

/-- In-place update of the element at an index, all other elements unchanged
(models `lst[i] = f(lst[i])`; out of range leaves the list unchanged, a case
the source never reaches without raising). -/
def listModify (f : α → α) : Nat → List α → List α
  | _, [] => []
  | 0, a :: l => f a :: l
  | n + 1, a :: l => a :: listModify f n l

/-! ## Per-table extraction loop (`extract_table_data_agent.py`) -/

/-- The `EXTRACT_DATA` system prompt template of `step2_prompts.py`, with the
`format_instructions` placeholder substituted.  Note that the template has no
placeholder for verification feedback. -/
def EXTRACT_DATA (format_instructions : String) : String :=
  "\nYou are a chemical expert. You know all about glass and ceramic compositions.\n \nYou will receive scans of documents (once in normal orientation and once tilted) and text that was extracted with OCR from those documents.\n \nYour task is to look at the tables on the page. You have to extract all values of the tables. You have to be very careful to get the values right!\n \nHere are some hints on what to look for:\n\n- consider OCR values to be correct\n\n- OCR headers might be wrong\n\n- always give the complete values and signs per cell. do not shorten the values.\n\n- use only values you see in the OCR text!\n \nYou will receive a tip of $100 if you get all values exactly right.\n\nIt is EXTREMLY important that you get all digits of the values.\n"
    ++ format_instructions ++ "\n"

/-- `get_page` helper of `_extract_table_data`: first page whose 1-based
`number` minus 1 equals the requested 0-based page index. -/
def get_page (pages : List SPage) (page_nr : Nat) : Option SPage :=
  pages.find? (fun p => p.number - 1 == page_nr)

/-- `add_base64image_to_messages` from `util_functions.py`: appends an image
message. -/
def add_base64image_to_messages (messages : List Msg) (img : String) : List Msg :=
  messages ++ [Msg.image img]

/-- The message list built by `_extract_table_data` before invoking the LLM:
the `EXTRACT_DATA` system prompt, the OCR text of the current table, and one
image per page the table spans.  (A missing page would raise in the source;
it is modelled by an empty image string and excluded by hypotheses.) -/
def buildExtractMessages (format_instructions : String) (current_table : STable)
    (pages : List SPage) : List Msg :=
  let base := [Msg.system (EXTRACT_DATA format_instructions),
               Msg.human ("OCR Text: " ++ current_table.content)]
  current_table.pages.foldl
    (fun msgs p_nr =>
      add_base64image_to_messages msgs (((get_page pages p_nr).map (·.base64)).getD ""))
    base

/-- First table index whose `extracted_data` is unset — the table-selection
scan of `_extract_table_data` when there is no pending feedback. -/
def firstUnextracted : List STable → Option Nat
  | [] => none
  | t :: ts =>
    if t.extracted_data.isNone then some 0 else (firstUnextracted ts).map (· + 1)

/-- The `try/except BadRequestError` around `chain.invoke`: a content-filter
error is replaced by an empty `TableDataResult`; other errors re-raise
(`none`). -/
def respOf : LLMOutcome → Option TableDataResult
  | .ok r => some r
  | .contentFilter => some { table_data := [], is_weight_percent := false }
  | .otherError => none

/-- Result of one `_extract_table_data` node step: `goto END`, a re-raised
exception, or `goto verify_table_data` carrying the updated state, the index
of the table just extracted, and the messages sent to the LLM. -/
inductive ExtractStep where
  | toEnd (state : ExtractTableDataState)
  | raised
  | toVerify (state : ExtractTableDataState) (idx : Nat) (messages : List Msg)
  deriving DecidableEq, Repr

/-- The tail of `_extract_table_data` once the current table is chosen:
build the prompt, invoke the LLM (`llmE`), attach the response to the current
table, record the current index, and go to verification. -/
def extractFor (format_instructions : String) (llmE : List Msg → LLMOutcome)
    (state : ExtractTableDataState) (current_idx : Nat) (current_table : STable) :
    ExtractStep :=
  let messages := buildExtractMessages format_instructions current_table state.pages
  match respOf (llmE messages) with
  | none => .raised
  | some resp =>
    let update_tables :=
      listModify (fun t => { t with extracted_data := some resp }) current_idx state.tables
    .toVerify { state with tables := update_tables, curr_table_idx := some current_idx }
      current_idx messages

/-- The `extract_table_data` node.  With no pending feedback it scans for the
first table without extracted data (END if none remains); with pending
feedback it re-targets the stored current table index (a missing or
out-of-range index raises in the source). -/
def _extract_table_data (format_instructions : String) (llmE : List Msg → LLMOutcome)
    (state : ExtractTableDataState) : ExtractStep :=
  match state.feedback with
  | some _ =>
    match state.curr_table_idx with
    | none => .raised
    | some i =>
      match state.tables.get? i with
      | none => .raised
      | some t => extractFor format_instructions llmE state i t
  | none =>
    match firstUnextracted state.tables with
    | none => .toEnd state
    | some i =>
      match state.tables.get? i with
      | none => .toEnd state
      | some t => extractFor format_instructions llmE state i t

/-- `max_n_retries` in `_verify_table_data`. -/
def max_n_retries : Nat := 3

/-- `init_val_for_retry_counter` in `_verify_table_data`. -/
def init_val_for_retry_counter : Nat := 1

/-- Result of one `_verify_table_data` node step (always `goto
extract_table_data` unless the source would raise). -/
inductive VerifyStep where
  | raisedV
  | toExtract (state : ExtractTableDataState)
  deriving DecidableEq, Repr

/-- The `verify_table_data` node.  At the retry cap it clears feedback and
resets the counter without invoking the LLM; otherwise it asks the verifier
(`llmV`, receiving the current table) and either stores feedback and
increments the counter, or clears both. -/
def _verify_table_data (llmV : STable → VerifyExtractionResult)
    (state : ExtractTableDataState) : VerifyStep :=
  if state.retry_counter ≥ max_n_retries then
    .toExtract { state with feedback := none, retry_counter := init_val_for_retry_counter }
  else
    match state.curr_table_idx with
    | none => .raisedV
    | some current_idx =>
      match state.tables.get? current_idx with
      | none => .raisedV
      | some current_table =>
        let resp := llmV current_table
        if resp.reextraction_necessary then
          .toExtract { state with feedback := some resp.feedback,
                                  retry_counter := state.retry_counter + 1 }
        else
          .toExtract { state with feedback := none,
                                  retry_counter := init_val_for_retry_counter }

/-- How a run of the loop ended. -/
inductive LoopEnd where
  | ended (state : ExtractTableDataState)
  | raisedDuringExtract (state : ExtractTableDataState)
  | raisedDuringVerify (state : ExtractTableDataState)
  | fuelOut (state : ExtractTableDataState)
  deriving DecidableEq, Repr

/-- Driver alternating `extract_table_data` and `verify_table_data` as the
compiled graph does, recording for every extraction attempt the targeted
table index and the retry counter in force during that attempt. -/
def runLoop (format_instructions : String) (llmE : List Msg → LLMOutcome)
    (llmV : STable → VerifyExtractionResult) :
    Nat → ExtractTableDataState → List (Nat × Nat) × LoopEnd
  | 0, s => ([], .fuelOut s)
  | fuel + 1, s =>
    match _extract_table_data format_instructions llmE s with
    | .toEnd s' => ([], .ended s')
    | .raised => ([], .raisedDuringExtract s)
    | .toVerify s' i _msgs =>
      match _verify_table_data llmV s' with
      | .raisedV => ([(i, s.retry_counter)], .raisedDuringVerify s')
      | .toExtract s'' =>
        let rest := runLoop format_instructions llmE llmV fuel s''
        ((i, s.retry_counter) :: rest.1, rest.2)

/-! ## Table merge engine and relevance filter (`extract_table_agent.py`) -/

/-- The page a fragment lives on: `table["pages"][0]` (detection gives every
fragment a singleton page list; an empty list would raise in the source). -/
def pageOf (t : STable) : Nat := t.pages.headD 0

/-- A default page record, used only to make out-of-range list indexing total
(the source raises `IndexError` there). -/
def dfltPage : SPage := { number := 0, content := "", tables := [], base64 := "" }

/-- `add_merged_table`: append one merged table (fresh id `len(tables)`,
contents joined with newlines, pages collected from each fragment's single
page) and, for every fragment, remove the fragment's id from its page's table
references and append the merged id. -/
def add_merged_table (tables : List STable) (tables_to_merge : List STable)
    (pages : List SPage) : List STable × List SPage :=
  let table_index := tables.length
  let table : STable :=
    { number := table_index,
      content := String.intercalate "\n" (tables_to_merge.map (·.content)),
      pages := tables_to_merge.map pageOf,
      extracted_data := none }
  let tables' := tables ++ [table]
  let pages' := tables_to_merge.foldl
    (fun pgs t =>
      listModify
        (fun pg => { pg with tables := (pg.tables.erase t.number) ++ [table_index] })
        (pageOf t) pgs)
    pages
  (tables', pages')

/-- Output of the merge engine, instrumented with the fragment groups that
were finalized into merged tables and the argument pairs on which the
continuity classifier (`check_if_table_spills`) was invoked. -/
structure ConcatResult where
  tables : List STable
  pages : List SPage
  groups : List (List STable)
  calls : List (STable × STable)
  deriving DecidableEq, Repr

/-- The inner/outer while loops of `_concatenate_tables`: `glast` is the last
fragment appended to the accumulating group `gacc`; `rest` is the remaining
table list.  The classifier oracle `spill` receives the two page indices whose
images the source passes.  `groups` and `calls` are bookkeeping only. -/
def concatAux (spill : Nat → Nat → Bool) :
    STable → List STable → List STable → List STable → List SPage →
    List (List STable) → List (STable × STable) → ConcatResult
  | _glast, gacc, [], tables, pages, groups, calls =>
    let (ts, ps) := add_merged_table tables gacc pages
    ⟨ts, ps, groups ++ [gacc], calls⟩
  | glast, gacc, t :: rest, tables, pages, groups, calls =>
    if pageOf glast + 1 = pageOf t then
      let calls' := calls ++ [(glast, t)]
      if spill (pageOf glast) (pageOf glast + 1) then
        concatAux spill t (gacc ++ [t]) rest tables pages groups calls'
      else
        let (ts, ps) := add_merged_table tables gacc pages
        concatAux spill t [t] rest ts ps (groups ++ [gacc]) calls'
    else
      let (ts, ps) := add_merged_table tables gacc pages
      concatAux spill t [t] rest ts ps (groups ++ [gacc]) calls

/-- `_concatenate_tables` node: partitions the detected tables into maximal
runs of page-adjacent, classifier-confirmed fragments and merges each run. -/
def _concatenate_tables (spill : Nat → Nat → Bool) (stateTables : List STable)
    (statePages : List SPage) : ConcatResult :=
  match stateTables with
  | [] => ⟨[], statePages, [], []⟩
  | t :: rest => concatAux spill t [t] rest [] statePages [] []

/-- `_filter_irrelevant_tables` node: keep the tables the relevance oracle
accepts (`check_if_table_relevant(state.pages, table)` modelled as `rel`),
then narrow `pages` to the sorted set of page indices referenced by the
surviving tables. -/
def _filter_irrelevant_tables (rel : List SPage → STable → Bool)
    (pages : List SPage) (tables : List STable) : List STable × List SPage :=
  let relevant_tables := tables.filter (fun t => rel pages t)
  let relevant_pages_numbers : Finset Nat := ((relevant_tables.map (·.pages)).flatten).toFinset
  let relevant_pages :=
    (relevant_pages_numbers.sort (· ≤ ·)).map (fun n => pages.getD n dfltPage)
  (relevant_tables, relevant_pages)

/-! ## Merge-on-write persistence (`save_table_data` / `save_main_info`)

The per-document JSON artifact is modelled at the object level as an ordered
association list with unique keys (a Python dict preserves insertion order).
`json.load` of the existing file yields `parsed`, a missing file `absent`,
and a `json.JSONDecodeError` the `malformed` case (the raw text is kept to
state that it is discarded). -/

/-- What reading the existing artifact file yields. -/
inductive ExistingFile (α : Type) where
  | absent
  | malformed (raw : String)
  | parsed (content : List (String × α))
  deriving DecidableEq, Repr

/-- `d[k] = v` on a Python dict in insertion order: replace the value if the
key exists, else append the pair at the end. -/
def dictInsert (e : List (String × α)) (k : String) (v : α) : List (String × α) :=
  if k ∈ e.map Prod.fst then e.map (fun p => if p.1 = k then (k, v) else p)
  else e ++ [(k, v)]

/-- `existing.update(data)`: fold `dictInsert` over the new pairs in order. -/
def dictUpdate (e d : List (String × α)) : List (String × α) :=
  d.foldl (fun acc p => dictInsert acc p.1 p.2) e

/-- Dict lookup (first matching key). -/
def dictLookup (k : String) : List (String × α) → Option α
  | [] => none
  | p :: ps => if p.1 = k then some p.2 else dictLookup k ps

/-- The content written by `save_table_data` in `extract_table_data_agent.py`:
merge the stage's data over the parsed existing file; on a missing or
unparseable file, write only the stage's data. -/
def save_table_data (existing : ExistingFile α) (data : List (String × α)) :
    List (String × α) :=
  match existing with
  | .parsed e => dictUpdate e data
  | .absent => data
  | .malformed _ => data

/-- `save_main_info` in `extract_main_data_agent.py` performs the identical
merge-on-write on its own keys. -/
def save_main_info (existing : ExistingFile α) (data : List (String × α)) :
    List (String × α) :=
  save_table_data existing data

/-! ## Normalization stage value parsing -/

/-- Replace every dot by a comma (German decimal separator). -/
def toCommaDecimal (s : String) : String :=
  ⟨s.data.map (fun c => if c = '.' then ',' else c)⟩

/-- Modelled from the spec: the Normalization Stage's value-parsing rules are
carried out by the LLM as instructed by `TABLE_NORMING_SYSTEM_PROMPT`
(`table_norming_prompts.py`); no executable parsing code exists in the
repository.  Following the spec's words: a cell beginning with `<` sets `max`
to the trailing number and leaves `min` unset; a cell beginning with `>` sets
`min` and leaves `max` unset; a plain cell sets both to the same number; all
output uses the comma as decimal separator.  Result is `(min, max)`. -/
def normalizeCell (s : String) : Option String × Option String :=
  if s.data.headD ' ' = '<' then (none, some (toCommaDecimal ⟨s.data.tail⟩))
  else if s.data.headD ' ' = '>' then (some (toCommaDecimal ⟨s.data.tail⟩), none)
  else (some (toCommaDecimal s), some (toCommaDecimal s))

/-! ## Basic lemmas about the list helpers -/

theorem listModify_length (f : α → α) : ∀ (i : Nat) (l : List α),
    (listModify f i l).length = l.length
  | _, [] => by simp [listModify]
  | 0, _ :: _ => rfl
  | i + 1, _ :: l => by simp [listModify, listModify_length f i l]

theorem get?_listModify_self (f : α → α) : ∀ (i : Nat) (l : List α),
    (listModify f i l).get? i = (l.get? i).map f
  | _, [] => by simp [listModify]
  | 0, _ :: _ => rfl
  | i + 1, _ :: l => by simpa [listModify] using get?_listModify_self f i l

theorem get?_listModify_ne (f : α → α) : ∀ (i j : Nat) (l : List α), j ≠ i →
    (listModify f i l).get? j = l.get? j
  | _, _, [], _ => by simp [listModify]
  | 0, 0, _ :: _, h => absurd rfl h
  | 0, _ + 1, _ :: _, _ => rfl
  | _ + 1, 0, _ :: _, _ => rfl
  | i + 1, j + 1, _ :: l, h => by
      simpa [listModify] using get?_listModify_ne f i j l (by omega)

theorem listModify_listModify_same (f g : α → α) : ∀ (i : Nat) (l : List α),
    listModify f i (listModify g i l) = listModify (fun a => f (g a)) i l
  | _, [] => by simp [listModify]
  | 0, _ :: _ => rfl
  | i + 1, _ :: l => by simp [listModify, listModify_listModify_same f g i l]

theorem firstUnextracted_spec : ∀ (ts : List STable) (j : Nat),
    firstUnextracted ts = some j →
    ∃ tb, ts.get? j = some tb ∧ tb.extracted_data = none
  | [], j, h => by simp [firstUnextracted] at h
  | t :: ts, j, h => by
      rw [firstUnextracted] at h
      by_cases hn : t.extracted_data.isNone
      · rw [if_pos hn] at h
        injection h with h
        subst h
        exact ⟨t, rfl, Option.isNone_iff_eq_none.mp hn⟩
      · rw [if_neg hn] at h
        obtain ⟨j', hj', rfl⟩ := Option.map_eq_some'.mp h
        obtain ⟨tb, hget, hnone⟩ := firstUnextracted_spec ts j' hj'
        exact ⟨tb, hget, hnone⟩

/-! ## Single-step characterizations of the extraction-loop nodes -/

theorem extract_step_fresh (fmt : String) (llmE : List Msg → LLMOutcome)
    (s : ExtractTableDataState) (i : Nat) (t : STable) (r : TableDataResult)
    (hfb : s.feedback = none) (hsel : firstUnextracted s.tables = some i)
    (hget : s.tables.get? i = some t)
    (hresp : respOf (llmE (buildExtractMessages fmt t s.pages)) = some r) :
    _extract_table_data fmt llmE s = .toVerify
      { s with tables := listModify (fun tb => { tb with extracted_data := some r }) i s.tables,
               curr_table_idx := some i } i (buildExtractMessages fmt t s.pages) := by
  simp only [_extract_table_data, hfb, hsel, hget, extractFor, hresp]

theorem extract_step_refine (fmt : String) (llmE : List Msg → LLMOutcome)
    (s : ExtractTableDataState) (i : Nat) (t : STable) (r : TableDataResult) (fb : String)
    (hfb : s.feedback = some fb) (hcur : s.curr_table_idx = some i)
    (hget : s.tables.get? i = some t)
    (hresp : respOf (llmE (buildExtractMessages fmt t s.pages)) = some r) :
    _extract_table_data fmt llmE s = .toVerify
      { s with tables := listModify (fun tb => { tb with extracted_data := some r }) i s.tables,
               curr_table_idx := some i } i (buildExtractMessages fmt t s.pages) := by
  simp only [_extract_table_data, hfb, hcur, hget, extractFor, hresp]

theorem extract_step_raises (fmt : String) (llmE : List Msg → LLMOutcome)
    (s : ExtractTableDataState) (i : Nat) (t : STable)
    (hfb : s.feedback = none) (hsel : firstUnextracted s.tables = some i)
    (hget : s.tables.get? i = some t)
    (hresp : llmE (buildExtractMessages fmt t s.pages) = .otherError) :
    _extract_table_data fmt llmE s = .raised := by
  simp only [_extract_table_data, hfb, hsel, hget, extractFor, hresp, respOf]

theorem verify_step_cap (llmV : STable → VerifyExtractionResult)
    (s : ExtractTableDataState) (h : s.retry_counter ≥ max_n_retries) :
    _verify_table_data llmV s = .toExtract
      { s with feedback := none, retry_counter := init_val_for_retry_counter } := by
  simp only [_verify_table_data, if_pos h]

theorem verify_step_reextract (llmV : STable → VerifyExtractionResult)
    (s : ExtractTableDataState) (i : Nat) (t : STable)
    (h : ¬ s.retry_counter ≥ max_n_retries) (hcur : s.curr_table_idx = some i)
    (hget : s.tables.get? i = some t)
    (hre : (llmV t).reextraction_necessary = true) :
    _verify_table_data llmV s = .toExtract
      { s with feedback := some (llmV t).feedback,
               retry_counter := s.retry_counter + 1 } := by
  simp only [_verify_table_data, if_neg h, hcur, hget, hre, if_pos]

theorem runLoop_cycle (fmt : String) (llmE : List Msg → LLMOutcome)
    (llmV : STable → VerifyExtractionResult) (n fuel : Nat)
    (s s' s'' : ExtractTableDataState) (i : Nat) (msgs : List Msg)
    (hn : n = fuel + 1)
    (hx : _extract_table_data fmt llmE s = .toVerify s' i msgs)
    (hv : _verify_table_data llmV s' = .toExtract s'') :
    runLoop fmt llmE llmV n s =
      ((i, s.retry_counter) :: (runLoop fmt llmE llmV fuel s'').1,
       (runLoop fmt llmE llmV fuel s'').2) := by
  subst hn
  simp only [runLoop, hx, hv]

theorem retry_cap_core (fmt : String) (llmE : List Msg → LLMOutcome)
    (llmV : STable → VerifyExtractionResult)
    (s : ExtractTableDataState) (i : Nat) (t : STable) (r : TableDataResult)
    (hfb : s.feedback = none) (hrc : s.retry_counter = 1)
    (hsel : firstUnextracted s.tables = some i) (hget : s.tables.get? i = some t)
    (hv : ∀ tb, (llmV tb).reextraction_necessary = true)
    (hresp : respOf (llmE (buildExtractMessages fmt t s.pages)) = some r) (fuel : Nat) :
    runLoop fmt llmE llmV (fuel + 3) s =
      ((i, 1) :: (i, 2) :: (i, 3) ::
        (runLoop fmt llmE llmV fuel
          { s with tables := listModify (fun tb => { tb with extracted_data := some r }) i s.tables,
                   curr_table_idx := some i, feedback := none, retry_counter := 1 }).1,
       (runLoop fmt llmE llmV fuel
          { s with tables := listModify (fun tb => { tb with extracted_data := some r }) i s.tables,
                   curr_table_idx := some i, feedback := none, retry_counter := 1 }).2) ∧
    firstUnextracted
      (listModify (fun tb => { tb with extracted_data := some r }) i s.tables) ≠ some i := by
  have hget1 : (listModify (fun tb => { tb with extracted_data := some r }) i s.tables).get? i
      = some { t with extracted_data := some r } := by
    rw [get?_listModify_self, hget]; rfl
  have hidem : listModify (fun tb => { tb with extracted_data := some r }) i
      (listModify (fun tb => { tb with extracted_data := some r }) i s.tables)
      = listModify (fun tb => { tb with extracted_data := some r }) i s.tables := by
    rw [listModify_listModify_same]
  constructor
  · -- cycle 1
    have hx1 := extract_step_fresh fmt llmE s i t r hfb hsel hget hresp
    set s1 : ExtractTableDataState :=
      { s with tables := listModify (fun tb => { tb with extracted_data := some r }) i s.tables,
               curr_table_idx := some i } with hs1
    have hv1 := verify_step_reextract llmV s1 i { t with extracted_data := some r }
      (by show ¬ s.retry_counter ≥ max_n_retries; rw [hrc]; decide) rfl hget1
      (hv { t with extracted_data := some r })
    have hc1 := runLoop_cycle fmt llmE llmV (fuel + 3) (fuel + 2) s s1 _ i _ rfl hx1 hv1
    -- cycle 2
    set s2 : ExtractTableDataState :=
      { s1 with feedback := some (llmV { t with extracted_data := some r }).feedback,
                retry_counter := s1.retry_counter + 1 } with hs2
    have hx2 := extract_step_refine fmt llmE s2 i { t with extracted_data := some r } r
      (llmV { t with extracted_data := some r }).feedback rfl rfl hget1 hresp
    rw [show listModify (fun tb => { tb with extracted_data := some r }) i s2.tables
        = listModify (fun tb => { tb with extracted_data := some r }) i s.tables from hidem] at hx2
    set s2' : ExtractTableDataState :=
      { s2 with tables := listModify (fun tb => { tb with extracted_data := some r }) i s.tables,
                curr_table_idx := some i } with hs2'
    have hv2 := verify_step_reextract llmV s2' i { t with extracted_data := some r }
      (by show ¬ s.retry_counter + 1 ≥ max_n_retries; rw [hrc]; decide) rfl hget1
      (hv { t with extracted_data := some r })
    have hc2 := runLoop_cycle fmt llmE llmV (fuel + 2) (fuel + 1) s2 s2' _ i _ rfl hx2 hv2
    -- cycle 3
    set s3 : ExtractTableDataState :=
      { s2' with feedback := some (llmV { t with extracted_data := some r }).feedback,
                 retry_counter := s2'.retry_counter + 1 } with hs3
    have hx3 := extract_step_refine fmt llmE s3 i { t with extracted_data := some r } r
      (llmV { t with extracted_data := some r }).feedback rfl rfl hget1 hresp
    rw [show listModify (fun tb => { tb with extracted_data := some r }) i s3.tables
        = listModify (fun tb => { tb with extracted_data := some r }) i s.tables from hidem] at hx3
    set s3' : ExtractTableDataState :=
      { s3 with tables := listModify (fun tb => { tb with extracted_data := some r }) i s.tables,
                curr_table_idx := some i } with hs3'
    have hv3 := verify_step_cap llmV s3'
      (by show s.retry_counter + 1 + 1 ≥ max_n_retries; rw [hrc]; decide)
    have hc3 := runLoop_cycle fmt llmE llmV (fuel + 1) fuel s3 s3' _ i _ rfl hx3 hv3
    rw [hc1, hc2, hc3]
    have e1 : s.retry_counter = 1 := hrc
    have e2 : s2.retry_counter = 2 := by show s.retry_counter + 1 = 2; rw [hrc]
    have e3 : s3.retry_counter = 3 := by show s.retry_counter + 1 + 1 = 3; rw [hrc]
    rw [e1, e2, e3]
    rfl
  · intro hcon
    obtain ⟨tb, hgt, hnone⟩ := firstUnextracted_spec _ _ hcon
    rw [hget1] at hgt
    injection hgt with hgt
    rw [← hgt] at hnone
    simp at hnone

/-- C1: in the per-table extraction loop, when verification always returns
`reextraction_required = true` (and the extraction LLM never fails hard),
exactly 3 extraction attempts are performed for the active table before the
loop moves on: the attempt trace for that table is `(i,1), (i,2), (i,3)`
(the retry counter cycling 1→2→3), after which verification is abandoned —
the continuation state has `feedback = none` and `retry_counter = 1` — and
the table-selection scan no longer selects table `i`. -/
theorem extraction_loop_retry_cap (fmt : String) (llmE : List Msg → LLMOutcome)
    (llmV : STable → VerifyExtractionResult)
    (s : ExtractTableDataState) (i : Nat) (t : STable)
    (hfb : s.feedback = none) (hrc : s.retry_counter = 1)
    (hsel : firstUnextracted s.tables = some i) (hget : s.tables.get? i = some t)
    (hv : ∀ tb, (llmV tb).reextraction_necessary = true)
    (he : ∀ msgs, llmE msgs ≠ LLMOutcome.otherError) (fuel : Nat) :
    ∃ r : TableDataResult,
      runLoop fmt llmE llmV (fuel + 3) s =
        ((i, 1) :: (i, 2) :: (i, 3) ::
          (runLoop fmt llmE llmV fuel
            { s with tables := listModify (fun tb => { tb with extracted_data := some r }) i s.tables,
                     curr_table_idx := some i, feedback := none, retry_counter := 1 }).1,
         (runLoop fmt llmE llmV fuel
            { s with tables := listModify (fun tb => { tb with extracted_data := some r }) i s.tables,
                     curr_table_idx := some i, feedback := none, retry_counter := 1 }).2) ∧
      firstUnextracted
        (listModify (fun tb => { tb with extracted_data := some r }) i s.tables) ≠ some i := by
  cases hout : llmE (buildExtractMessages fmt t s.pages) with
  | ok r0 =>
    exact ⟨r0, retry_cap_core fmt llmE llmV s i t r0 hfb hrc hsel hget hv
      (by rw [hout]; rfl) fuel⟩
  | contentFilter =>
    exact ⟨{ table_data := [], is_weight_percent := false },
      retry_cap_core fmt llmE llmV s i t _ hfb hrc hsel hget hv (by rw [hout]; rfl) fuel⟩
  | otherError => exact absurd hout (he _)

/-- A concrete single-table pipeline state used to witness the retry-cap
theorem. -/
def tC1 : STable := { number := 0, content := "SiO2||65.8", pages := [0], extracted_data := none }

def pgC1 : SPage := { number := 1, content := "page one", tables := [0], base64 := "img" }

def sC1 : ExtractTableDataState :=
  { pages := [pgC1], tables := [tC1], feedback := none, retry_counter := 1, curr_table_idx := none }

def llmEC1 : List Msg → LLMOutcome := fun _ => .ok { table_data := [["65,8"]], is_weight_percent := true }

def llmVC1 : STable → VerifyExtractionResult := fun _ => { feedback := "wrong digits", reextraction_necessary := true }

/-- Witness for C1 at a concrete one-table state and concrete oracles. -/
theorem extraction_loop_retry_cap_witness :
    sC1.feedback = none ∧ sC1.retry_counter = 1 ∧
    firstUnextracted sC1.tables = some 0 ∧ sC1.tables.get? 0 = some tC1 ∧
    (∀ tb, (llmVC1 tb).reextraction_necessary = true) ∧
    (∀ msgs, llmEC1 msgs ≠ LLMOutcome.otherError) ∧
    (∃ r : TableDataResult,
      runLoop "" llmEC1 llmVC1 (0 + 3) sC1 =
        ((0, 1) :: (0, 2) :: (0, 3) ::
          (runLoop "" llmEC1 llmVC1 0
            { sC1 with tables := listModify (fun tb => { tb with extracted_data := some r }) 0 sC1.tables,
                       curr_table_idx := some 0, feedback := none, retry_counter := 1 }).1,
         (runLoop "" llmEC1 llmVC1 0
            { sC1 with tables := listModify (fun tb => { tb with extracted_data := some r }) 0 sC1.tables,
                       curr_table_idx := some 0, feedback := none, retry_counter := 1 }).2) ∧
      firstUnextracted
        (listModify (fun tb => { tb with extracted_data := some r }) 0 sC1.tables) ≠ some 0) :=
  by
  refine ⟨rfl, rfl, rfl, rfl, ?_, ?_, ?_⟩
  · exact fun _ => rfl
  · exact fun _ h => nomatch h
  · exact extraction_loop_retry_cap "" llmEC1 llmVC1 sC1 0 tC1 rfl rfl rfl rfl
      (fun _ => rfl) (fun _ h => nomatch h) 0

/-- C7: during EXTRACT, a content-filter error from the LLM provider is
replaced by an empty extraction result (`table_data = []`) attached to the
active table and the loop proceeds to verification, while any other LLM
error re-raises. -/
theorem content_filter_substitutes_empty (fmt : String) (llmE : List Msg → LLMOutcome)
    (s : ExtractTableDataState) (i : Nat) (t : STable)
    (hfb : s.feedback = none) (hsel : firstUnextracted s.tables = some i)
    (hget : s.tables.get? i = some t) :
    (llmE (buildExtractMessages fmt t s.pages) = LLMOutcome.contentFilter →
      _extract_table_data fmt llmE s = .toVerify
        { s with tables := listModify (fun tb => { tb with extracted_data := some { table_data := [], is_weight_percent := false } }) i s.tables, curr_table_idx := some i }
        i (buildExtractMessages fmt t s.pages)) ∧
    (llmE (buildExtractMessages fmt t s.pages) = LLMOutcome.otherError →
      _extract_table_data fmt llmE s = ExtractStep.raised) := by
  constructor
  · intro h
    exact extract_step_fresh fmt llmE s i t _ hfb hsel hget (by rw [h]; rfl)
  · intro h
    exact extract_step_raises fmt llmE s i t hfb hsel hget h

def llmECF : List Msg → LLMOutcome := fun _ => .contentFilter

/-- Witness for C7 at a concrete one-table state with a content-filtering
LLM oracle. -/
theorem content_filter_substitutes_empty_witness :
    sC1.feedback = none ∧ firstUnextracted sC1.tables = some 0 ∧
    sC1.tables.get? 0 = some tC1 ∧
    ((llmECF (buildExtractMessages "" tC1 sC1.pages) = LLMOutcome.contentFilter →
      _extract_table_data "" llmECF sC1 = .toVerify
        { sC1 with tables := listModify (fun tb => { tb with extracted_data := some { table_data := [], is_weight_percent := false } }) 0 sC1.tables, curr_table_idx := some 0 }
        0 (buildExtractMessages "" tC1 sC1.pages)) ∧
    (llmECF (buildExtractMessages "" tC1 sC1.pages) = LLMOutcome.otherError →
      _extract_table_data "" llmECF sC1 = ExtractStep.raised)) :=
  ⟨rfl, rfl, rfl, content_filter_substitutes_empty "" llmECF sC1 0 tC1 rfl rfl rfl⟩

/-! ## C2: the re-extraction prompt and the stored feedback -/

def fbC2 : String := "Row 2 value 65.8 was misread as 658"

def tC2 : STable :=
  { number := 0, content := "SiO2||65.8\nAl2O3||19.9", pages := [0],
    extracted_data := some { table_data := [["658"]], is_weight_percent := true } }

def pgC2 : SPage := { number := 1, content := "page", tables := [0], base64 := "AAAA" }

def sC2 : ExtractTableDataState :=
  { pages := [pgC2], tables := [tC2], feedback := some fbC2,
    retry_counter := 2, curr_table_idx := some 0 }

def llmEC2 : List Msg → LLMOutcome :=
  fun _ => .ok { table_data := [["65.8"]], is_weight_percent := true }

set_option maxRecDepth 100000 in
/-- C2 (refuting the feedback-in-prompt half): at a concrete state carrying
verification feedback, the next extraction does target the stored current
table (index 0), but the messages sent to the LLM — the `EXTRACT_DATA`
system prompt, the OCR text and the page image — contain no occurrence of
the stored feedback text: the template has no feedback placeholder and
`_extract_table_data` never reads `state.feedback`'s content. -/
theorem extract_prompt_omits_feedback :
    _extract_table_data "FORMAT" llmEC2 sC2 = ExtractStep.toVerify
      { sC2 with tables := listModify (fun tb => { tb with extracted_data := some { table_data := [["65.8"]], is_weight_percent := true } }) 0 sC2.tables, curr_table_idx := some 0 }
      0 (buildExtractMessages "FORMAT" tC2 sC2.pages) ∧
    ((buildExtractMessages "FORMAT" tC2 sC2.pages).all
      (fun m => !(occursIn fbC2.data (msgText m).data))) = true := by
  constructor
  · exact extract_step_refine "FORMAT" llmEC2 sC2 0 tC2 _ fbC2 rfl rfl rfl rfl
  · decide

/-! ## C8: normalization-stage value parsing -/

theorem toCommaDecimal_no_dot (u : String) : '.' ∉ (toCommaDecimal u).data := by
  intro hmem
  obtain ⟨c, _, heq⟩ := List.mem_map.mp hmem
  by_cases hc : c = '.'
  · rw [if_pos hc] at heq
    exact (by decide : (',' : Char) ≠ '.') heq
  · rw [if_neg hc] at heq
    exact hc heq

/-- C8: the modelled normalization parsing rules map `"<65.8"` to
`(min, max) = (none, "65,8")`, `">19.9"` to `("19,9", none)`, `"3.5"` to
`("3,5", "3,5")`, and every output string is free of the dot separator
(commas only), whatever the input notation. -/
theorem normalize_cell_rules :
    normalizeCell "<65.8" = (none, some "65,8") ∧
    normalizeCell ">19.9" = (some "19,9", none) ∧
    normalizeCell "3.5" = (some "3,5", some "3,5") ∧
    ∀ s : String,
      (∀ o, (normalizeCell s).1 = some o → '.' ∉ o.data) ∧
      (∀ o, (normalizeCell s).2 = some o → '.' ∉ o.data) := by
  refine ⟨by decide, by decide, by decide, fun s => ?_⟩
  unfold normalizeCell
  split_ifs with h1 h2
  · constructor
    · intro o ho
      exact absurd ho (by simp)
    · intro o ho
      simp only [Option.some.injEq] at ho
      rw [← ho]
      exact toCommaDecimal_no_dot _
  · constructor
    · intro o ho
      simp only [Option.some.injEq] at ho
      rw [← ho]
      exact toCommaDecimal_no_dot _
    · intro o ho
      exact absurd ho (by simp)
  · constructor
    · intro o ho
      simp only [Option.some.injEq] at ho
      rw [← ho]
      exact toCommaDecimal_no_dot _
    · intro o ho
      simp only [Option.some.injEq] at ho
      rw [← ho]
      exact toCommaDecimal_no_dot _

/-- Witness for C8: the no-dot property applied at the concrete input
`"<65.8"`. -/
theorem normalize_cell_rules_witness :
    (normalizeCell "<65.8").2 = some "65,8" ∧ '.' ∉ ("65,8" : String).data :=
  ⟨by decide, (normalize_cell_rules.2.2.2 "<65.8").2 "65,8" (by decide)⟩

/-! ## C9/C10: merge-on-write lemmas -/

theorem dictLookup_mem_keys {e : List (String × α)} {k : String} {v : α}
    (h : dictLookup k e = some v) : k ∈ e.map Prod.fst := by
  induction e with
  | nil => simp [dictLookup] at h
  | cons p ps ih =>
    rw [dictLookup] at h
    by_cases hp : p.1 = k
    · simp [hp]
    · rw [if_neg hp] at h
      simp [ih h]

theorem dictInsert_keys_of_mem {e : List (String × α)} {k : String} (v : α)
    (h : k ∈ e.map Prod.fst) :
    (dictInsert e k v).map Prod.fst = e.map Prod.fst := by
  rw [dictInsert, if_pos h, List.map_map]
  apply List.map_congr_left
  intro p _
  by_cases hp : p.1 = k
  · simp [hp]
  · simp [hp]

theorem dictInsert_keys_of_not_mem {e : List (String × α)} {k : String} (v : α)
    (h : k ∉ e.map Prod.fst) :
    (dictInsert e k v).map Prod.fst = e.map Prod.fst ++ [k] := by
  rw [dictInsert, if_neg h, List.map_append]
  rfl

theorem dictInsert_keys_nodup {e : List (String × α)} {k : String} (v : α)
    (h : (e.map Prod.fst).Nodup) : ((dictInsert e k v).map Prod.fst).Nodup := by
  by_cases hm : k ∈ e.map Prod.fst
  · rw [dictInsert_keys_of_mem v hm]
    exact h
  · rw [dictInsert_keys_of_not_mem v hm]
    exact ((List.perm_append_singleton k (e.map Prod.fst)).nodup_iff).mpr
      (List.nodup_cons.mpr ⟨hm, h⟩)

theorem dictLookup_replace_self {k : String} (v : α) :
    ∀ (e : List (String × α)), k ∈ e.map Prod.fst →
      dictLookup k (e.map (fun p => if p.1 = k then (k, v) else p)) = some v
  | [], hm => by simp at hm
  | p :: ps, hm => by
    by_cases hp : p.1 = k
    · simp [List.map_cons, if_pos hp, dictLookup]
    · have hmem : k ∈ ps.map Prod.fst := by
        rw [List.map_cons] at hm
        rcases List.mem_cons.mp hm with h | h
        · exact absurd h.symm hp
        · exact h
      simp only [List.map_cons, if_neg hp, dictLookup, if_neg hp]
      exact dictLookup_replace_self v ps hmem

theorem dictLookup_append_self {k : String} (v : α) :
    ∀ (e : List (String × α)), k ∉ e.map Prod.fst →
      dictLookup k (e ++ [(k, v)]) = some v
  | [], _ => by simp [dictLookup]
  | p :: ps, hm => by
    have hp : p.1 ≠ k := by
      intro hp
      exact hm (by simp [hp])
    have hm' : k ∉ ps.map Prod.fst := by
      intro hmem
      exact hm (by simp [hmem])
    simp only [List.cons_append, dictLookup, if_neg hp]
    exact dictLookup_append_self v ps hm'

theorem dictLookup_replace_ne {k k' : String} (v : α) (hne : k' ≠ k) :
    ∀ (e : List (String × α)),
      dictLookup k' (e.map (fun p => if p.1 = k then (k, v) else p)) = dictLookup k' e
  | [] => rfl
  | p :: ps => by
    by_cases hp : p.1 = k
    · have hp' : p.1 ≠ k' := by
        rw [hp]
        exact Ne.symm hne
      simp only [List.map_cons, if_pos hp, dictLookup, if_neg hp',
        if_neg (Ne.symm hne)]
      exact dictLookup_replace_ne v hne ps
    · simp only [List.map_cons, if_neg hp, dictLookup]
      by_cases hq : p.1 = k'
      · rw [if_pos hq, if_pos hq]
      · rw [if_neg hq, if_neg hq]
        exact dictLookup_replace_ne v hne ps

theorem dictLookup_append_ne {k k' : String} (v : α) (hne : k' ≠ k) :
    ∀ (e : List (String × α)),
      dictLookup k' (e ++ [(k, v)]) = dictLookup k' e
  | [] => by simp [dictLookup, Ne.symm hne]
  | p :: ps => by
    by_cases hq : p.1 = k'
    · simp only [List.cons_append, dictLookup, if_pos hq]
    · simp only [List.cons_append, dictLookup, if_neg hq]
      exact dictLookup_append_ne v hne ps

theorem dictLookup_dictInsert_self (e : List (String × α)) (k : String) (v : α) :
    dictLookup k (dictInsert e k v) = some v := by
  rw [dictInsert]
  by_cases hm : k ∈ e.map Prod.fst
  · rw [if_pos hm]
    exact dictLookup_replace_self v e hm
  · rw [if_neg hm]
    exact dictLookup_append_self v e hm

theorem dictLookup_dictInsert_ne (e : List (String × α)) {k k' : String} (v : α)
    (hne : k' ≠ k) : dictLookup k' (dictInsert e k v) = dictLookup k' e := by
  rw [dictInsert]
  by_cases hm : k ∈ e.map Prod.fst
  · rw [if_pos hm]
    exact dictLookup_replace_ne v hne e
  · rw [if_neg hm]
    exact dictLookup_append_ne v hne e

theorem replace_map_of_not_mem {k : String} (v : α) :
    ∀ (e : List (String × α)), k ∉ e.map Prod.fst →
      e.map (fun p => if p.1 = k then (k, v) else p) = e
  | [], _ => rfl
  | p :: ps, hm => by
    have hp : p.1 ≠ k := by
      intro hp
      exact hm (by simp [hp])
    have hm' : k ∉ ps.map Prod.fst := by
      intro hmem
      exact hm (by simp [hmem])
    simp only [List.map_cons, if_neg hp]
    rw [replace_map_of_not_mem v ps hm']

theorem dictInsert_of_lookup {k : String} {v : α} :
    ∀ {e : List (String × α)}, (e.map Prod.fst).Nodup →
      dictLookup k e = some v → dictInsert e k v = e
  | [], _, h => by simp [dictLookup] at h
  | p :: ps, hnd, h => by
    have hmem : k ∈ (p :: ps).map Prod.fst := dictLookup_mem_keys h
    rw [dictInsert, if_pos hmem, List.map_cons]
    rw [List.map_cons] at hnd
    obtain ⟨hnot, hndtl⟩ := List.nodup_cons.mp hnd
    by_cases hp : p.1 = k
    · rw [dictLookup, if_pos hp] at h
      injection h with h
      have hk : k ∉ ps.map Prod.fst := by
        rw [← hp]
        exact hnot
      rw [if_pos hp, replace_map_of_not_mem v ps hk, ← hp, ← h]
    · rw [dictLookup, if_neg hp] at h
      have hins := dictInsert_of_lookup hndtl h
      rw [dictInsert, if_pos (dictLookup_mem_keys h)] at hins
      rw [if_neg hp, hins]

theorem dictUpdate_keys_nodup {e : List (String × α)} (hnd : (e.map Prod.fst).Nodup) :
    ∀ d : List (String × α), ((dictUpdate e d).map Prod.fst).Nodup := by
  intro d
  induction d generalizing e with
  | nil => exact hnd
  | cons p ps ih => exact ih (dictInsert_keys_nodup p.2 hnd)

theorem dictLookup_dictUpdate_not_mem {k : String} {e : List (String × α)} :
    ∀ {d : List (String × α)}, k ∉ d.map Prod.fst →
      dictLookup k (dictUpdate e d) = dictLookup k e := by
  intro d
  induction d generalizing e with
  | nil => intro _; rfl
  | cons p ps ih =>
    intro hk
    have hne : k ≠ p.1 := by
      intro h
      exact hk (by simp [h])
    have hk' : k ∉ ps.map Prod.fst := by
      intro hmem
      exact hk (by simp [hmem])
    show dictLookup k (dictUpdate (dictInsert e p.1 p.2) ps) = dictLookup k e
    rw [ih hk', dictLookup_dictInsert_ne e p.2 hne]

theorem dictLookup_dictUpdate_mem {k : String} {v : α} {e : List (String × α)} :
    ∀ {d : List (String × α)}, (d.map Prod.fst).Nodup → (k, v) ∈ d →
      dictLookup k (dictUpdate e d) = some v := by
  intro d
  induction d generalizing e with
  | nil => intro _ h; simp at h
  | cons p ps ih =>
    intro hnd hmem
    rw [List.map_cons] at hnd
    obtain ⟨hnot, hndtl⟩ := List.nodup_cons.mp hnd
    rcases List.mem_cons.mp hmem with h | h
    · have hpk : p.1 = k := by rw [← h]
      have hk : k ∉ ps.map Prod.fst := by
        rw [← hpk]
        exact hnot
      show dictLookup k (dictUpdate (dictInsert e p.1 p.2) ps) = some v
      rw [dictLookup_dictUpdate_not_mem hk, hpk, ← h]
      exact dictLookup_dictInsert_self e k v
    · exact ih hndtl h

theorem dictUpdate_eq_self {e : List (String × α)} (hnd : (e.map Prod.fst).Nodup) :
    ∀ {d : List (String × α)}, (∀ p ∈ d, dictLookup p.1 e = some p.2) →
      dictUpdate e d = e := by
  intro d
  induction d with
  | nil => intro _; rfl
  | cons p ps ih =>
    intro h
    show dictUpdate (dictInsert e p.1 p.2) ps = e
    rw [dictInsert_of_lookup hnd (h p (by simp))]
    exact ih (fun q hq => h q (by simp [hq]))

theorem dictLookup_self_of_nodup {k : String} {v : α} :
    ∀ {d : List (String × α)}, (d.map Prod.fst).Nodup → (k, v) ∈ d →
      dictLookup k d = some v
  | [], _, hmem => by simp at hmem
  | p :: ps, hnd, hmem => by
    rw [List.map_cons] at hnd
    obtain ⟨hnot, hndtl⟩ := List.nodup_cons.mp hnd
    rcases List.mem_cons.mp hmem with h | h
    · rw [dictLookup, ← h]
      rw [if_pos rfl]
    · have hp : p.1 ≠ k := by
        intro hp
        apply hnot
        rw [hp]
        exact List.mem_map.mpr ⟨(k, v), h, rfl⟩
      rw [dictLookup, if_neg hp]
      exact dictLookup_self_of_nodup hndtl h

/-- C9: the merge-on-write save step is idempotent — writing the same stage
output twice to the persisted artifact yields the same file content as
writing it once, whatever the pre-existing file was (absent, malformed, or a
parsed object with unique keys). -/
theorem save_merge_idempotent (ex : ExistingFile α) (d : List (String × α))
    (hd : (d.map Prod.fst).Nodup)
    (hex : ∀ e, ex = ExistingFile.parsed e → (e.map Prod.fst).Nodup) :
    save_table_data (ExistingFile.parsed (save_table_data ex d)) d
      = save_table_data ex d := by
  cases ex with
  | parsed e =>
    have hnde := hex e rfl
    show dictUpdate (dictUpdate e d) d = dictUpdate e d
    apply dictUpdate_eq_self (dictUpdate_keys_nodup hnde d)
    rintro ⟨k, v⟩ hp
    exact dictLookup_dictUpdate_mem hd hp
  | absent =>
    show dictUpdate d d = d
    apply dictUpdate_eq_self hd
    rintro ⟨k, v⟩ hp
    exact dictLookup_self_of_nodup hd hp
  | malformed raw =>
    show dictUpdate d d = d
    apply dictUpdate_eq_self hd
    rintro ⟨k, v⟩ hp
    exact dictLookup_self_of_nodup hd hp

def exC9 : ExistingFile String :=
  ExistingFile.parsed [("ocr_text", "abc"), ("supplier", "ACME")]

def dC9 : List (String × String) :=
  [("table_data", "grid"), ("confidence", "high")]

/-- Witness for C9 at a concrete parsed file and stage payload. -/
theorem save_merge_idempotent_witness :
    (dC9.map Prod.fst).Nodup ∧
    (∀ e, exC9 = ExistingFile.parsed e → (e.map Prod.fst).Nodup) ∧
    save_table_data (ExistingFile.parsed (save_table_data exC9 dC9)) dC9
      = save_table_data exC9 dC9 := by
  refine ⟨by decide, ?_, ?_⟩
  · intro e h
    injection h with h
    rw [← h]
    decide
  · exact save_merge_idempotent exC9 dC9 (by decide)
      (fun e h => by injection h with h; rw [← h]; decide)

/-- C10: when the pre-existing per-document artifact fails to parse
(`json.JSONDecodeError`), the save step silently discards the whole existing
content and writes exactly the current stage's keys, so keys of earlier
stages do not survive. -/
theorem save_discards_malformed (raw : String) (d : List (String × α)) :
    save_main_info (ExistingFile.malformed raw) d = d ∧
    save_table_data (ExistingFile.malformed raw) d = d :=
  ⟨rfl, rfl⟩

/-! ## C3: `add_merged_table` -/

/-- The page-reference rewrite performed by `add_merged_table` on the `pages`
list: for each fragment, in order, remove the fragment's id from its page's
table references and append the fresh merged id `n`. -/
def pagesFold (n : Nat) (g : List STable) (pgs : List SPage) : List SPage :=
  g.foldl
    (fun pgs t =>
      listModify (fun pg => { pg with tables := (pg.tables.erase t.number) ++ [n] })
        (pageOf t) pgs)
    pgs

theorem add_merged_table_eq (tables g : List STable) (pages : List SPage) :
    add_merged_table tables g pages =
      (tables ++ [{ number := tables.length,
                    content := String.intercalate "\n" (g.map (·.content)),
                    pages := g.map pageOf, extracted_data := none }],
       pagesFold tables.length g pages) := rfl

theorem pagesFold_length (n : Nat) : ∀ (g : List STable) (pgs : List SPage),
    (pagesFold n g pgs).length = pgs.length
  | [], _ => rfl
  | t :: g, pgs => by
    show (pagesFold n g _).length = _
    rw [pagesFold_length n g, listModify_length]

theorem pagesFold_get?_untouched (n : Nat) :
    ∀ (g : List STable) (pgs : List SPage) (p : Nat), (∀ t ∈ g, pageOf t ≠ p) →
      (pagesFold n g pgs).get? p = pgs.get? p
  | [], _, _, _ => rfl
  | t :: g, pgs, p, h => by
    show (pagesFold n g _).get? p = _
    rw [pagesFold_get?_untouched n g _ p (fun u hu => h u (by simp [hu])),
      get?_listModify_ne _ _ _ _ (Ne.symm (h t (by simp)))]

theorem pagesFold_get?_touched (n : Nat) :
    ∀ (g : List STable) (pgs : List SPage) (t : STable),
      ((g.map pageOf).Nodup) → t ∈ g →
      (pagesFold n g pgs).get? (pageOf t) =
        (pgs.get? (pageOf t)).map
          (fun pg => { pg with tables := (pg.tables.erase t.number) ++ [n] })
  | [], _, _, _, ht => absurd ht (by simp)
  | u :: g, pgs, t, hnd, ht => by
    rw [List.map_cons] at hnd
    obtain ⟨hnot, hndtl⟩ := List.nodup_cons.mp hnd
    rcases List.mem_cons.mp ht with h | h
    · subst h
      show (pagesFold n g _).get? (pageOf t) = _
      rw [pagesFold_get?_untouched n g _ (pageOf t)
          (fun v hv hvp => hnot (hvp ▸ List.mem_map.mpr ⟨v, hv, rfl⟩)),
        get?_listModify_self]
    · have hne : pageOf t ≠ pageOf u := by
        intro hh
        exact hnot (hh ▸ List.mem_map.mpr ⟨t, h, rfl⟩)
      show (pagesFold n g _).get? (pageOf t) = _
      rw [pagesFold_get?_touched n g _ t hndtl h,
        get?_listModify_ne _ _ _ _ hne]

theorem chain_pagesucc_sorted {g : List STable}
    (hchain : List.Chain' (fun a b => pageOf a + 1 = pageOf b) g) :
    (g.map pageOf).Sorted (· < ·) := by
  have h1 : List.Chain' (· < ·) (g.map pageOf) := by
    rw [List.chain'_map]
    exact hchain.imp (fun h => by omega)
  exact List.chain'_iff_pairwise.mp h1

/-- C3: a merged table produced by `add_merged_table` under the merge
engine's calling convention (fragments carrying single pages that form a
run of consecutive pages, each fragment id referenced exactly once by its
page) gets `page_refs` equal to the sorted duplicate-free list of the
fragments' pages, and every contributing page's reference set afterwards is
exactly the old set with that fragment's id removed and the fresh merged id
appended — so it contains the merged id in place of the fragment id (the
fragment id survives only in the degenerate case where it is numerically
the merged id itself, e.g. fragment 0 of the very first group); all other
pages are untouched. -/
theorem add_merged_table_spec (tables group : List STable) (pages : List SPage)
    (hchain : List.Chain' (fun a b => pageOf a + 1 = pageOf b) group)
    (hsingle : ∀ t ∈ group, t.pages = [pageOf t])
    (hlt : ∀ t ∈ group, pageOf t < pages.length)
    (hcount : ∀ t ∈ group, ∀ pg, pages.get? (pageOf t) = some pg →
      pg.tables.count t.number = 1) :
    (add_merged_table tables group pages).1 =
      tables ++ [{ number := tables.length,
                   content := String.intercalate "\n" (group.map (·.content)),
                   pages := group.map pageOf, extracted_data := none }] ∧
    (group.map pageOf).Sorted (· < ·) ∧
    (∀ p, p ∈ group.map pageOf ↔ ∃ t ∈ group, p ∈ t.pages) ∧
    (add_merged_table tables group pages).2.length = pages.length ∧
    (∀ t ∈ group, ∃ pg,
      (add_merged_table tables group pages).2.get? (pageOf t) = some pg ∧
      tables.length ∈ pg.tables ∧ (t.number ≠ tables.length → t.number ∉ pg.tables) ∧
      ∀ pg0, pages.get? (pageOf t) = some pg0 →
        pg.tables = (pg0.tables.erase t.number) ++ [tables.length]) ∧
    (∀ p : Nat, (∀ t ∈ group, pageOf t ≠ p) →
      (add_merged_table tables group pages).2.get? p = pages.get? p) := by
  have hnd : (group.map pageOf).Nodup :=
    (chain_pagesucc_sorted hchain).nodup
  refine ⟨rfl, chain_pagesucc_sorted hchain, ?_, ?_, ?_, ?_⟩
  · intro p
    constructor
    · intro hp
      obtain ⟨t, ht, rfl⟩ := List.mem_map.mp hp
      exact ⟨t, ht, by rw [hsingle t ht]; exact List.mem_singleton.mpr rfl⟩
    · rintro ⟨t, ht, hp⟩
      rw [hsingle t ht] at hp
      rw [List.mem_singleton.mp hp]
      exact List.mem_map.mpr ⟨t, ht, rfl⟩
  · rw [add_merged_table_eq]
    exact pagesFold_length _ group pages
  · intro t ht
    have hget := pagesFold_get?_touched tables.length group pages t hnd ht
    obtain ⟨pg0, hpg0⟩ : ∃ pg0, pages.get? (pageOf t) = some pg0 :=
      ⟨pages.get ⟨pageOf t, hlt t ht⟩, List.get?_eq_get (hlt t ht)⟩
    refine ⟨{ (pg0 : SPage) with tables := (pg0.tables.erase t.number) ++ [tables.length] }, ?_, ?_, ?_, ?_⟩
    · rw [add_merged_table_eq]
      show (pagesFold tables.length group pages).get? (pageOf t) = _
      rw [hget, hpg0]
      rfl
    · exact List.mem_append.mpr (Or.inr (List.mem_singleton.mpr rfl))
    · intro hne hmem
      rcases List.mem_append.mp hmem with h | h
      · have hc := hcount t ht pg0 hpg0
        have : pg0.tables.count t.number - 1 = 0 := by omega
        rw [← List.count_erase_self] at this
        exact (List.count_eq_zero.mp this) h
      · exact hne (List.mem_singleton.mp h)
    · intro pg1 hpg1
      rw [hpg0] at hpg1
      injection hpg1 with hpg1
      rw [hpg1]
  · intro p hp
    rw [add_merged_table_eq]
    exact pagesFold_get?_untouched tables.length group pages p hp

def tablesC3 : List STable := [{ number := 0, content := "m0", pages := [5], extracted_data := none }]

def groupC3 : List STable :=
  [{ number := 3, content := "fragA", pages := [1], extracted_data := none },
   { number := 4, content := "fragB", pages := [2], extracted_data := none }]

def pagesC3 : List SPage :=
  [{ number := 1, content := "", tables := [], base64 := "" },
   { number := 2, content := "", tables := [3], base64 := "" },
   { number := 3, content := "", tables := [4], base64 := "" }]

/-- Witness for C3 at a concrete two-fragment group on consecutive pages. -/
theorem add_merged_table_spec_witness :
    List.Chain' (fun a b => pageOf a + 1 = pageOf b) groupC3 ∧
    (∀ t ∈ groupC3, t.pages = [pageOf t]) ∧
    (∀ t ∈ groupC3, pageOf t < pagesC3.length) ∧
    ((add_merged_table tablesC3 groupC3 pagesC3).1 =
      tablesC3 ++ [{ number := tablesC3.length,
                     content := String.intercalate "\n" (groupC3.map (·.content)),
                     pages := groupC3.map pageOf, extracted_data := none }] ∧
    (groupC3.map pageOf).Sorted (· < ·) ∧
    (∀ p, p ∈ groupC3.map pageOf ↔ ∃ t ∈ groupC3, p ∈ t.pages) ∧
    (add_merged_table tablesC3 groupC3 pagesC3).2.length = pagesC3.length ∧
    (∀ t ∈ groupC3, ∃ pg,
      (add_merged_table tablesC3 groupC3 pagesC3).2.get? (pageOf t) = some pg ∧
      tablesC3.length ∈ pg.tables ∧ (t.number ≠ tablesC3.length → t.number ∉ pg.tables) ∧
      ∀ pg0, pagesC3.get? (pageOf t) = some pg0 →
        pg.tables = (pg0.tables.erase t.number) ++ [tablesC3.length]) ∧
    (∀ p : Nat, (∀ t ∈ groupC3, pageOf t ≠ p) →
      (add_merged_table tablesC3 groupC3 pagesC3).2.get? p = pagesC3.get? p)) := by
  have hch : List.Chain' (fun a b => pageOf a + 1 = pageOf b) groupC3 := by
    simp [groupC3, List.chain'_cons, List.chain'_singleton, pageOf]
  refine ⟨hch, by decide, by decide, ?_⟩
  exact add_merged_table_spec tablesC3 groupC3 pagesC3 hch (by decide) (by decide)
    (by decide)

/-! ## C4: table ids after the structural stages -/

theorem map_number_append_len (tables : List STable) (m : STable)
    (hm : m.number = tables.length)
    (h : tables.map (·.number) = List.range tables.length) :
    (tables ++ [m]).map (·.number) = List.range (tables ++ [m]).length := by
  rw [List.map_append, h, List.length_append]
  simp [List.range_succ, hm]

theorem add_merged_numbers (tables g : List STable) (pages : List SPage)
    (h : tables.map (·.number) = List.range tables.length) :
    (add_merged_table tables g pages).1.map (·.number) =
      List.range (add_merged_table tables g pages).1.length :=
  map_number_append_len tables _ rfl h

theorem concatAux_numbers (spill : Nat → Nat → Bool) :
    ∀ (rest : List STable) (glast : STable) (gacc tables : List STable)
      (pages : List SPage) (groups : List (List STable)) (calls : List (STable × STable)),
      tables.map (·.number) = List.range tables.length →
      (concatAux spill glast gacc rest tables pages groups calls).tables.map (·.number) =
        List.range (concatAux spill glast gacc rest tables pages groups calls).tables.length
  | [], glast, gacc, tables, pages, groups, calls, h => by
    show (add_merged_table tables gacc pages).1.map (·.number) = _
    exact add_merged_numbers tables gacc pages h
  | t :: rest, glast, gacc, tables, pages, groups, calls, h => by
    rw [concatAux]
    by_cases hadj : pageOf glast + 1 = pageOf t
    · rw [if_pos hadj]
      by_cases hsp : spill (pageOf glast) (pageOf glast + 1)
      · rw [if_pos hsp]
        exact concatAux_numbers spill rest t (gacc ++ [t]) tables pages groups _ h
      · rw [if_neg hsp]
        exact concatAux_numbers spill rest t [t] _ _ _ _
          (add_merged_numbers tables gacc pages h)
    · rw [if_neg hadj]
      exact concatAux_numbers spill rest t [t] _ _ _ _
        (add_merged_numbers tables gacc pages h)

/-- C4 (amended): after the table-merge stage the table ids are dense and
0-based — the table stored at position `i` carries id `i`; the relevance
filter, however, does not reassign ids: it keeps each surviving table's
record (hence its id) unchanged, so ids stay unique but need not be dense
afterwards. -/
theorem table_ids_after_structural_stages :
    (∀ (spill : Nat → Nat → Bool) (st : List STable) (pgs : List SPage),
      (_concatenate_tables spill st pgs).tables.map (·.number) =
        List.range (_concatenate_tables spill st pgs).tables.length) ∧
    (∀ (rel : List SPage → STable → Bool) (pgs : List SPage) (ts : List STable),
      (_filter_irrelevant_tables rel pgs ts).1 = ts.filter (fun t => rel pgs t) ∧
      ((ts.map (·.number)).Nodup →
        ((_filter_irrelevant_tables rel pgs ts).1.map (·.number)).Nodup)) := by
  constructor
  · intro spill st pgs
    cases st with
    | nil => rfl
    | cons t rest =>
      exact concatAux_numbers spill rest t [t] [] pgs [] [] rfl
  · intro rel pgs ts
    refine ⟨rfl, fun hnd => ?_⟩
    exact hnd.sublist ((ts.filter_sublist).map (·.number))

def relC4 : List SPage → STable → Bool := fun _ t => t.number == 1

def tsC4 : List STable :=
  [{ number := 0, content := "a", pages := [0], extracted_data := none },
   { number := 1, content := "b", pages := [1], extracted_data := none }]

def pgsC4 : List SPage :=
  [{ number := 1, content := "pa", tables := [0], base64 := "" },
   { number := 2, content := "pb", tables := [1], base64 := "" }]

/-- C4 counterexample: with two detected tables of which only the second is
relevant, the filtered output stores at position 0 a table that still
carries id 1, so ids are not reassigned densely by the relevance filter and
the claim's "table stored at position i carries id i after every structural
stage" fails. -/
theorem filter_ids_not_reassigned :
    (_filter_irrelevant_tables relC4 pgsC4 tsC4).1.map (·.number) ≠
      List.range (_filter_irrelevant_tables relC4 pgsC4 tsC4).1.length := by
  decide

/-- Witness for C4 (amended) at a concrete merge run and concrete filter
input. -/
theorem table_ids_after_structural_stages_witness :
    ((_concatenate_tables (fun _ _ => true) tsC4 pgsC4).tables.map (·.number) =
      List.range (_concatenate_tables (fun _ _ => true) tsC4 pgsC4).tables.length) ∧
    (tsC4.map (·.number)).Nodup ∧
    ((_filter_irrelevant_tables relC4 pgsC4 tsC4).1.map (·.number)).Nodup :=
  ⟨table_ids_after_structural_stages.1 (fun _ _ => true) tsC4 pgsC4, by decide,
   (table_ids_after_structural_stages.2 relC4 pgsC4 tsC4).2 (by decide)⟩

/-! ## C5: adjacency is necessary for merging and for classifier calls -/

/-- The relation holding between successive fragments inside one merge group:
they are consecutive detected tables (ids differ by one) on consecutive
pages. -/
def mergeRel (a b : STable) : Prop :=
  a.number + 1 = b.number ∧ pageOf a + 1 = pageOf b

theorem concatAux_nil (spill : Nat → Nat → Bool) (glast : STable)
    (gacc tables : List STable) (pages : List SPage)
    (groups : List (List STable)) (calls : List (STable × STable)) :
    concatAux spill glast gacc [] tables pages groups calls =
      ⟨(add_merged_table tables gacc pages).1, (add_merged_table tables gacc pages).2,
       groups ++ [gacc], calls⟩ := rfl

theorem concatAux_cons_ext (spill : Nat → Nat → Bool) (glast t : STable)
    (rest gacc tables : List STable) (pages : List SPage)
    (groups : List (List STable)) (calls : List (STable × STable))
    (hadj : pageOf glast + 1 = pageOf t)
    (hsp : spill (pageOf glast) (pageOf glast + 1) = true) :
    concatAux spill glast gacc (t :: rest) tables pages groups calls =
      concatAux spill t (gacc ++ [t]) rest tables pages groups (calls ++ [(glast, t)]) := by
  simp only [concatAux]
  rw [if_pos hadj, if_pos hsp]

theorem concatAux_cons_fin (spill : Nat → Nat → Bool) (glast t : STable)
    (rest gacc tables : List STable) (pages : List SPage)
    (groups : List (List STable)) (calls : List (STable × STable))
    (hadj : pageOf glast + 1 = pageOf t)
    (hsp : ¬ spill (pageOf glast) (pageOf glast + 1) = true) :
    concatAux spill glast gacc (t :: rest) tables pages groups calls =
      concatAux spill t [t] rest (add_merged_table tables gacc pages).1
        (add_merged_table tables gacc pages).2 (groups ++ [gacc]) (calls ++ [(glast, t)]) := by
  simp only [concatAux]
  rw [if_pos hadj, if_neg hsp]

theorem concatAux_cons_nonadj (spill : Nat → Nat → Bool) (glast t : STable)
    (rest gacc tables : List STable) (pages : List SPage)
    (groups : List (List STable)) (calls : List (STable × STable))
    (hadj : ¬ pageOf glast + 1 = pageOf t) :
    concatAux spill glast gacc (t :: rest) tables pages groups calls =
      concatAux spill t [t] rest (add_merged_table tables gacc pages).1
        (add_merged_table tables gacc pages).2 (groups ++ [gacc]) calls := by
  simp only [concatAux]
  rw [if_neg hadj]

theorem concatAux_groups_calls (spill : Nat → Nat → Bool) :
    ∀ (rest : List STable) (glast : STable) (gacc tables : List STable)
      (pages : List SPage) (groups : List (List STable)) (calls : List (STable × STable)),
      gacc.getLast? = some glast →
      List.Chain' mergeRel gacc →
      List.Chain' (fun a b => a.number + 1 = b.number) (glast :: rest) →
      (∀ g ∈ groups, List.Chain' mergeRel g) →
      (∀ c ∈ calls, mergeRel c.1 c.2) →
      (∀ g ∈ (concatAux spill glast gacc rest tables pages groups calls).groups,
          List.Chain' mergeRel g) ∧
      (∀ c ∈ (concatAux spill glast gacc rest tables pages groups calls).calls,
          mergeRel c.1 c.2)
  | [], glast, gacc, tables, pages, groups, calls, _, hgacc, _, hgr, hca => by
    rw [concatAux_nil]
    constructor
    · intro g hg
      rcases List.mem_append.mp hg with h | h
      · exact hgr g h
      · rw [List.mem_singleton.mp h]
        exact hgacc
    · exact hca
  | t :: rest, glast, gacc, tables, pages, groups, calls, hlast, hgacc, hchain, hgr, hca => by
    by_cases hadj : pageOf glast + 1 = pageOf t
    · have hnum : glast.number + 1 = t.number := (List.chain'_cons.mp hchain).1
      have hchain' : List.Chain' (fun a b => a.number + 1 = b.number) (t :: rest) :=
        (List.chain'_cons.mp hchain).2
      have hcall : ∀ c ∈ calls ++ [(glast, t)], mergeRel c.1 c.2 := by
        intro c hc
        rcases List.mem_append.mp hc with h | h
        · exact hca c h
        · rw [List.mem_singleton.mp h]
          exact ⟨hnum, hadj⟩
      by_cases hsp : spill (pageOf glast) (pageOf glast + 1) = true
      · rw [concatAux_cons_ext spill glast t rest gacc tables pages groups calls hadj hsp]
        have hext : List.Chain' mergeRel (gacc ++ [t]) := by
          apply List.chain'_append.mpr
          refine ⟨hgacc, List.chain'_singleton t, ?_⟩
          intro x hx y hy
          rw [hlast] at hx
          injection hx with hx
          injection hy with hy
          rw [← hx, ← hy]
          exact ⟨hnum, hadj⟩
        exact concatAux_groups_calls spill rest t (gacc ++ [t]) tables pages groups _
          (List.getLast?_concat _) hext hchain' hgr hcall
      · rw [concatAux_cons_fin spill glast t rest gacc tables pages groups calls hadj hsp]
        refine concatAux_groups_calls spill rest t [t] _ _ _ _ rfl
          (List.chain'_singleton t) hchain' ?_ hcall
        intro g hg
        rcases List.mem_append.mp hg with h | h
        · exact hgr g h
        · rw [List.mem_singleton.mp h]
          exact hgacc
    · rw [concatAux_cons_nonadj spill glast t rest gacc tables pages groups calls hadj]
      refine concatAux_groups_calls spill rest t [t] _ _ _ _ rfl
        (List.chain'_singleton t) (hchain.tail) ?_ hca
      intro g hg
      rcases List.mem_append.mp hg with h | h
      · exact hgr g h
      · rw [List.mem_singleton.mp h]
        exact hgacc

theorem chain_mergeRel_offsets (g : List STable) (hc : List.Chain' mergeRel g) :
    ∀ (j : Nat) (hj : j < g.length) (h0 : 0 < g.length),
      (g.get ⟨j, hj⟩).number = (g.get ⟨0, h0⟩).number + j ∧
      pageOf (g.get ⟨j, hj⟩) = pageOf (g.get ⟨0, h0⟩) + j := by
  intro j
  induction j with
  | zero => intro hj h0; exact ⟨rfl, rfl⟩
  | succ j ih =>
    intro hj h0
    have hj' : j < g.length := by omega
    obtain ⟨hn, hp⟩ := ih hj' h0
    have hcg := List.chain'_iff_get.mp hc j (by omega)
    obtain ⟨hcn, hcp⟩ := hcg
    constructor
    · omega
    · omega

theorem chain_mergeRel_mem (g : List STable) (hc : List.Chain' mergeRel g)
    (x y : STable) (hx : x ∈ g) (hy : y ∈ g) (hxy : y.number = x.number + 1) :
    pageOf x + 1 = pageOf y := by
  obtain ⟨⟨jx, hjx⟩, hgx⟩ := List.mem_iff_get.mp hx
  obtain ⟨⟨jy, hjy⟩, hgy⟩ := List.mem_iff_get.mp hy
  have h0 : 0 < g.length := by omega
  obtain ⟨hnx, hpx⟩ := chain_mergeRel_offsets g hc jx hjx h0
  obtain ⟨hny, hpy⟩ := chain_mergeRel_offsets g hc jy hjy h0
  rw [hgx] at hnx hpx
  rw [hgy] at hny hpy
  omega

/-- C5: if two consecutive detected tables are not on adjacent pages (page
delta not exactly 1), the merge engine never places them in the same
fragment group (so they are never merged into one logical table) and the
continuity classifier is never invoked on that pair. -/
theorem no_merge_without_adjacency (spill : Nat → Nat → Bool)
    (st : List STable) (pages : List SPage) (i : Nat)
    (hnum : ∀ (j : Nat) (hj : j < st.length), (st.get ⟨j, hj⟩).number = j)
    (hi : i + 1 < st.length)
    (hdelta : pageOf (st.get ⟨i, Nat.lt_of_succ_lt hi⟩) + 1 ≠ pageOf (st.get ⟨i + 1, hi⟩)) :
    (∀ g ∈ (_concatenate_tables spill st pages).groups,
      ¬ (st.get ⟨i, Nat.lt_of_succ_lt hi⟩ ∈ g ∧ st.get ⟨i + 1, hi⟩ ∈ g)) ∧
    (st.get ⟨i, Nat.lt_of_succ_lt hi⟩, st.get ⟨i + 1, hi⟩) ∉
      (_concatenate_tables spill st pages).calls := by
  have hchain : List.Chain' (fun a b => a.number + 1 = b.number) st := by
    apply List.chain'_iff_get.mpr
    intro j hj
    rw [hnum j (by omega), hnum (j + 1) (by omega)]
  have hmain :
      (∀ g ∈ (_concatenate_tables spill st pages).groups, List.Chain' mergeRel g) ∧
      (∀ c ∈ (_concatenate_tables spill st pages).calls, mergeRel c.1 c.2) := by
    cases st with
    | nil =>
      constructor
      · intro g hg
        exact absurd hg (by simp [_concatenate_tables])
      · intro c hc
        exact absurd hc (by simp [_concatenate_tables])
    | cons t rest =>
      exact concatAux_groups_calls spill rest t [t] [] pages [] [] rfl
        (List.chain'_singleton t) hchain (by simp) (by simp)
  constructor
  · rintro g hg ⟨hx, hy⟩
    have hcg := hmain.1 g hg
    have hxy : (st.get ⟨i + 1, hi⟩).number = (st.get ⟨i, Nat.lt_of_succ_lt hi⟩).number + 1 := by
      rw [hnum i (Nat.lt_of_succ_lt hi), hnum (i + 1) hi]
    exact hdelta (chain_mergeRel_mem g hcg _ _ hx hy hxy)
  · intro hc
    exact hdelta (hmain.2 _ hc).2

def stC5 : List STable :=
  [{ number := 0, content := "t0", pages := [0], extracted_data := none },
   { number := 1, content := "t1", pages := [2], extracted_data := none }]

def pgsC5 : List SPage :=
  [{ number := 1, content := "", tables := [0], base64 := "" },
   { number := 2, content := "", tables := [], base64 := "" },
   { number := 3, content := "", tables := [1], base64 := "" }]

/-- Witness for C5 at a concrete pair of detected tables with page delta 2
and a classifier oracle that always answers CONTINUOUS. -/
theorem no_merge_without_adjacency_witness :
    (∀ (j : Nat) (hj : j < stC5.length), (stC5.get ⟨j, hj⟩).number = j) ∧
    0 + 1 < stC5.length ∧
    pageOf (stC5.get ⟨0, by decide⟩) + 1 ≠ pageOf (stC5.get ⟨0 + 1, by decide⟩) ∧
    ((∀ g ∈ (_concatenate_tables (fun _ _ => true) stC5 pgsC5).groups,
      ¬ (stC5.get ⟨0, by decide⟩ ∈ g ∧ stC5.get ⟨0 + 1, by decide⟩ ∈ g)) ∧
    (stC5.get ⟨0, by decide⟩, stC5.get ⟨0 + 1, by decide⟩) ∉
      (_concatenate_tables (fun _ _ => true) stC5 pgsC5).calls) := by
  have hnum : ∀ (j : Nat) (hj : j < stC5.length), (stC5.get ⟨j, hj⟩).number = j := by
    intro j hj
    have hj2 : j < 2 := by simpa [stC5] using hj
    interval_cases j <;> rfl
  refine ⟨hnum, by decide, by decide, ?_⟩
  exact no_merge_without_adjacency (fun _ _ => true) stC5 pgsC5 0 hnum (by decide) (by decide)

/-! ## C6: the relevance filter narrows pages to the surviving tables -/

/-- C6: after the relevance filter, irrelevant tables are dropped outright
(the surviving tables are exactly the filter of the input, no threshold and
no retry), and the output page list is exactly the pages referenced by the
surviving tables — each input page appearing iff some surviving table
references it — in strictly ascending page order, whatever the original
page count. -/
theorem filter_pages_spec (rel : List SPage → STable → Bool)
    (pages : List SPage) (tables : List STable)
    (hin : ∀ t ∈ tables, ∀ p ∈ t.pages, p < pages.length)
    (hpn : ∀ (j : Nat) (hj : j < pages.length), (pages.get ⟨j, hj⟩).number = j + 1) :
    (_filter_irrelevant_tables rel pages tables).1 = tables.filter (fun t => rel pages t) ∧
    ((_filter_irrelevant_tables rel pages tables).2.map (·.number)).Sorted (· < ·) ∧
    (∀ pg, pg ∈ (_filter_irrelevant_tables rel pages tables).2 ↔
      ∃ t ∈ (_filter_irrelevant_tables rel pages tables).1, ∃ p ∈ t.pages,
        ∃ hp : p < pages.length, pg = pages.get ⟨p, hp⟩) := by
  have h2 : (_filter_irrelevant_tables rel pages tables).2 =
      ((((tables.filter (fun t => rel pages t)).map (·.pages)).flatten).toFinset.sort (· ≤ ·)).map
        (fun n => pages.getD n dfltPage) := rfl
  have hmemL : ∀ n, n ∈ (((tables.filter (fun t => rel pages t)).map (·.pages)).flatten).toFinset.sort (· ≤ ·) ↔
      ∃ t ∈ tables.filter (fun t => rel pages t), n ∈ t.pages := by
    intro n
    rw [Finset.mem_sort, List.mem_toFinset, List.mem_flatten]
    constructor
    · rintro ⟨l, hl, hn⟩
      obtain ⟨t, ht, rfl⟩ := List.mem_map.mp hl
      exact ⟨t, ht, hn⟩
    · rintro ⟨t, ht, hn⟩
      exact ⟨t.pages, List.mem_map.mpr ⟨t, ht, rfl⟩, hn⟩
  have hbound : ∀ n ∈ (((tables.filter (fun t => rel pages t)).map (·.pages)).flatten).toFinset.sort (· ≤ ·),
      n < pages.length := by
    intro n hn
    obtain ⟨t, ht, hp⟩ := (hmemL n).mp hn
    exact hin t (List.mem_of_mem_filter ht) n hp
  have hsorted : ((((tables.filter (fun t => rel pages t)).map (·.pages)).flatten).toFinset.sort (· ≤ ·)).Sorted (· < ·) :=
    Finset.sort_sorted_lt _
  have hgetD : ∀ (n : Nat) (h : n < pages.length), pages.getD n dfltPage = pages.get ⟨n, h⟩ := by
    intro n h
    show (pages.get? n).getD dfltPage = _
    rw [List.get?_eq_get h]
    rfl
  refine ⟨rfl, ?_, ?_⟩
  · rw [h2, List.map_map]
    apply List.pairwise_map.mpr
    apply List.Pairwise.imp_of_mem ?_ hsorted
    intro a b ha hb hab
    have hA := hbound a ha
    have hB := hbound b hb
    show (pages.getD a dfltPage).number < (pages.getD b dfltPage).number
    rw [hgetD a hA, hgetD b hB, hpn a hA, hpn b hB]
    omega
  · intro pg
    rw [h2]
    constructor
    · intro hpg
      obtain ⟨n, hnL, rfl⟩ := List.mem_map.mp hpg
      obtain ⟨t, ht, hp⟩ := (hmemL n).mp hnL
      have hb := hbound n hnL
      exact ⟨t, ht, n, hp, hb, hgetD n hb⟩
    · rintro ⟨t, ht, p, hp, hplen, rfl⟩
      apply List.mem_map.mpr
      refine ⟨p, (hmemL p).mpr ⟨t, ht, hp⟩, ?_⟩
      exact hgetD p hplen

def relC6 : List SPage → STable → Bool := fun _ t => t.number == 0

def tsC6 : List STable :=
  [{ number := 0, content := "a", pages := [2, 0], extracted_data := none },
   { number := 1, content := "b", pages := [1], extracted_data := none }]

def pgsC6 : List SPage :=
  [{ number := 1, content := "p1", tables := [0], base64 := "" },
   { number := 2, content := "p2", tables := [1], base64 := "" },
   { number := 3, content := "p3", tables := [0], base64 := "" }]

/-- Witness for C6 at a concrete filter run where only table 0 (spanning
pages 0 and 2) survives. -/
theorem filter_pages_spec_witness :
    (∀ t ∈ tsC6, ∀ p ∈ t.pages, p < pgsC6.length) ∧
    (∀ (j : Nat) (hj : j < pgsC6.length), (pgsC6.get ⟨j, hj⟩).number = j + 1) ∧
    ((_filter_irrelevant_tables relC6 pgsC6 tsC6).1 = tsC6.filter (fun t => relC6 pgsC6 t) ∧
    ((_filter_irrelevant_tables relC6 pgsC6 tsC6).2.map (·.number)).Sorted (· < ·) ∧
    (∀ pg, pg ∈ (_filter_irrelevant_tables relC6 pgsC6 tsC6).2 ↔
      ∃ t ∈ (_filter_irrelevant_tables relC6 pgsC6 tsC6).1, ∃ p ∈ t.pages,
        ∃ hp : p < pgsC6.length, pg = pgsC6.get ⟨p, hp⟩)) := by
  have hpn : ∀ (j : Nat) (hj : j < pgsC6.length), (pgsC6.get ⟨j, hj⟩).number = j + 1 := by
    intro j hj
    have hj3 : j < 3 := by simpa [pgsC6] using hj
    interval_cases j <;> rfl
  refine ⟨by decide, hpn, ?_⟩
  exact filter_pages_spec relC6 pgsC6 tsC6 (by decide) hpn

end ChemXtract
